import Mathlib

/-!
Verification of the composition layer declared in `include/ifopt/leaves.h`
(namespace `opt`): `VariableSet`, `ConstraintSet` and `CostTerm`, all
specializing an external `Component` base class.

Shallow embedding conventions:
* Jacobian entries are rationals (the C++ code uses `double`; the assembly
  logic is entirely arithmetic-free, it only moves entries around).
* A matrix is an entry function `Nat → Nat → ℚ` together with its intended
  dimensions where those matter.
* The virtual methods a subclass supplies (`FillJacobianBlock`,
  `LinkVariables`, `GetCost`) are parameters (a vtable record / explicit
  function arguments); subclass member state is an abstract type `σ`.
* `assert(false)` bodies are modelled as fallible functions returning
  `Option`, always `none` (the assertion fires, no value is produced).
-/

namespace Ifopt

/-- Entry function of a matrix: row index, column index to value. -/
def Mat : Type := Nat → Nat → ℚ

/-- The all-zero matrix (zero-initialized storage). -/
def zeroMat : Mat := fun _ _ => 0

/-- A Jacobian as returned to callers: a row count, a column count and the
entry function. -/
structure Jacobian where
  rows : Nat
  cols : Nat
  entry : Mat

/-- `VariableSet(n_var, name)`: a named block of decision variables.
Only the data fixed at construction matters for the claims: the name and
the number of variables. -/
structure VariableSet where
  name : String
  n_var : Nat
deriving DecidableEq

/-- A `Composite` of variable sets: the ordered collection of variable
blocks, in composite (registration) order. -/
def Composite : Type := List VariableSet

instance : DecidableEq Composite :=
  inferInstanceAs (DecidableEq (List VariableSet))

/-- Total number of variables in a composite: sum of the member counts. -/
def totalCount (comp : Composite) : Nat :=
  (List.map VariableSet.n_var comp).sum

/-- Column offset of block `i` in a composite: the sum of the counts of the
preceding blocks. -/
def offsetAt : Composite → Nat → Nat
  | _, 0 => 0
  | [], _ + 1 => 0
  | v :: rest, i + 1 => v.n_var + offsetAt rest i

/-- A C++ `assert(cond)`: succeeds (with no information) when the condition
holds, aborts otherwise. -/
def cppAssert (cond : Bool) : Option Unit :=
  if cond then some () else none

/-- `VariableSet::GetJacobian`, from `leaves.h` line 59: the whole body is
`assert(false);` — the assertion always fires and no matrix is ever
returned (the comment in the source: generated run-time error when used). -/
def VariableSet.GetJacobian (_v : VariableSet) : Option Jacobian :=
  (cppAssert false).bind fun _ => none

/-- State of a `ConstraintSet` (base-class fields of the C++ object):
the row count and name fixed by the constructor, the private `variables_`
pointer (`none` while unlinked), and the subclass member state `sub`. -/
structure ConstraintSet (σ : Type) where
  n_constraints : Nat
  name : String
  variables_ : Option Composite
  sub : σ

/-- The virtual methods a `ConstraintSet` subclass supplies:
`FillJacobianBlock(var_set, jac_block)` (a const method: it reads the
subclass state, takes the block matrix passed in and returns the matrix as
written), and the `LinkVariables(x)` hook, which receives `x`, can read
`GetVariables()` (second argument) and updates the subclass state. -/
structure ConstraintVTable (σ : Type) where
  fillJacobianBlock : σ → String → Mat → Mat
  linkVariables : Composite → Option Composite → σ → σ

/-- The default `LinkVariables` hook from `leaves.h` lines 96–98: an empty
body, the subclass state is returned unchanged. -/
def defaultLinkVariables (σ : Type) : Composite → Option Composite → σ → σ :=
  fun _ _ sub => sub

/-- Modelled from the spec: the body of the constructor
`ConstraintSet(int n_constraints, const std::string& name)` lives in
`leaves.cc`, which is not among the visible sources. Per the spec a
ConstraintSet is constructed unlinked (no variable reference), with the
given row count and name. -/
def mkConstraintSet (n_constraints : Nat) (name : String) (sub : σ) :
    ConstraintSet σ :=
  ⟨n_constraints, name, none, sub⟩

/-- `ConstraintSet::GetVariables`, `leaves.h` line 120: read access to the
stored variables pointer. -/
def GetVariables (s : ConstraintSet σ) : Option Composite :=
  s.variables_

/-- `ConstraintSet::LinkVariableAll(x)`, `leaves.h` lines 89–93:
`variables_ = x; LinkVariables(x);` — the reference is stored first, then
the overridable hook runs on the updated object (so the hook already sees
`GetVariables() = x`). -/
def LinkVariableAll (impl : ConstraintVTable σ) (s : ConstraintSet σ)
    (x : Composite) : ConstraintSet σ :=
  let s1 : ConstraintSet σ := { s with variables_ := some x }
  { s1 with sub := impl.linkVariables x (GetVariables s1) s1.sub }

/-- `ConstraintSet::SetVariables`, `leaves.h` line 142: the whole body is
`assert(false);` — the assertion always fires and no updated object is
ever produced (the value of a constraint is never assigned). -/
def ConstraintSet.SetVariables (_s : ConstraintSet σ) (_x : List ℚ) :
    Option (ConstraintSet σ) :=
  (cppAssert false).bind fun _ => none

/-- Writing a block of width `width` into the column range starting at
`offset` of a full matrix: inside the range the block's entry (at its
local column) is taken, outside the full matrix is untouched. -/
def writeBlock (full : Mat) (offset width : Nat) (block : Mat) : Mat :=
  fun r c => if offset ≤ c ∧ c < offset + width then block r (c - offset) else full r c

/-- The scatter loop of `GetJacobian`: walk the variable blocks in
composite order; for each block ask the subclass to fill a zero-initialized
block matrix via `fill name zeroMat` and write the result into the block's
column range of the full matrix, then advance the offset by the block's
count. -/
def scatterBlocks (fill : String → Mat → Mat) :
    Composite → Nat → Mat → Mat
  | [], _, full => full
  | v :: rest, offset, full =>
      scatterBlocks fill rest (offset + v.n_var)
        (writeBlock full offset v.n_var (fill v.name zeroMat))

/-- Modelled from the spec: the constraint-value query (`GetValues`, an
abstract method of the external `Component` base class declared in
`composite.h`, which is not among the visible sources) as invoked on a
ConstraintSet. Per the spec the value is the subclass's constraint
function (here `g`) of the linked variables, and calling the query while
unlinked fails. -/
def Component.GetValues (g : Composite → σ → List ℚ) (s : ConstraintSet σ) :
    Option (List ℚ) :=
  match s.variables_ with
  | none => none
  | some comp => some (g comp s.sub)

/-- Modelled from the spec: the body of `ConstraintSet::GetJacobian` lives
in `leaves.cc`, which is not among the visible sources (only its
declaration, `leaves.h` line 112, and its documentation are). Per the
spec: while unlinked the query fails; when linked, for each VariableSet of
the linked Composite, in composite order, the block's column range is
determined (offset = sum of the counts of the preceding blocks, width =
the block's own count), the subclass fills a zero-initialized
row-count × block-count matrix via `FillJacobianBlock(name, block)`, and
the block is written into the matching column range of the full
n × (total variable count) matrix. -/
def GetJacobian (impl : ConstraintVTable σ) (s : ConstraintSet σ) :
    Option Jacobian :=
  match s.variables_ with
  | none => none
  | some comp =>
      some ⟨s.n_constraints, totalCount comp,
            scatterBlocks (impl.fillJacobianBlock s.sub) comp 0 zeroMat⟩

/-- One end of a bound: finite value or an infinity. -/
inductive BoundEnd where
  | negInf : BoundEnd
  | posInf : BoundEnd
  | fin : ℚ → BoundEnd
deriving DecidableEq

/-- Bounds of one row: `lower_bound < g(x) < upper_bound`. -/
structure Bounds where
  lower : BoundEnd
  upper : BoundEnd
deriving DecidableEq

/-- `NoBound`: the unbounded interval (−∞, +∞). -/
def noBound : Bounds := ⟨BoundEnd.negInf, BoundEnd.posInf⟩

/-- Modelled from the spec: the body of the constructor
`CostTerm(const std::string& name)` lives in `leaves.cc`, which is not
among the visible sources. Per the spec a CostTerm is a ConstraintSet with
exactly 1 row. -/
def mkCostTerm (name : String) (sub : σ) : ConstraintSet σ :=
  mkConstraintSet 1 name sub

/-- Modelled from the spec: the body of `CostTerm::GetValues` lives in
`leaves.cc`, which is not among the visible sources (only its declaration,
`leaves.h` line 170, is). Per the spec it wraps the scalar result of the
abstract `GetCost()` (here the parameter `g`, a function of the object's
state) into a length-1 value vector. -/
def CostTerm.GetValues (g : ConstraintSet σ → ℚ) (s : ConstraintSet σ) :
    List ℚ :=
  [g s]

/-- Modelled from the spec: the body of `CostTerm::GetBounds` lives in
`leaves.cc`, which is not among the visible sources (only its declaration,
`leaves.h` line 175, is). Per the spec it always returns the single
unbounded interval. -/
def CostTerm.GetBounds (_s : ConstraintSet σ) : List Bounds :=
  [noBound]

/-! ### Helper lemmas on the scatter loop -/

/-- Columns left of the running offset are never written by the scatter
loop. -/
theorem scatterBlocks_untouched (fill : String → Mat → Mat)
    (comp : Composite) (offset : Nat) (full : Mat) (r c : Nat)
    (hc : c < offset) :
    scatterBlocks fill comp offset full r c = full r c := by
  induction comp generalizing offset full with
  | nil => rfl
  | cons v rest ih =>
      have h1 : scatterBlocks fill (v :: rest) offset full r c =
          scatterBlocks fill rest (offset + v.n_var)
            (writeBlock full offset v.n_var (fill v.name zeroMat)) r c := rfl
      rw [h1, ih (offset + v.n_var) _ (Nat.lt_of_lt_of_le hc (Nat.le_add_right _ _))]
      unfold writeBlock
      rw [if_neg]
      intro h
      exact Nat.not_le_of_lt hc h.1

/-- The entry of the scattered matrix at block `i`, local column `j`: it is
the entry the subclass wrote into the zero-initialized block for that
block's name. -/
theorem scatterBlocks_entry (fill : String → Mat → Mat)
    (comp : Composite) (offset : Nat) (full : Mat)
    (i : Fin comp.length) (r j : Nat) (hj : j < (comp.get i).n_var) :
    scatterBlocks fill comp offset full r (offset + offsetAt comp i.val + j) =
      fill (comp.get i).name zeroMat r j := by
  induction comp generalizing offset full with
  | nil => exact absurd i.isLt (Nat.not_lt_zero _)
  | cons v rest ih =>
      match i with
      | ⟨0, _⟩ =>
          have hcol : offset + offsetAt (v :: rest) 0 + j = offset + j := by
            simp [offsetAt]
          rw [hcol]
          have h1 : scatterBlocks fill (v :: rest) offset full r (offset + j) =
              scatterBlocks fill rest (offset + v.n_var)
                (writeBlock full offset v.n_var (fill v.name zeroMat)) r (offset + j) := rfl
          rw [h1, scatterBlocks_untouched fill rest (offset + v.n_var) _ r _
            (Nat.add_lt_add_left hj offset)]
          unfold writeBlock
          rw [if_pos ⟨Nat.le_add_right _ _, Nat.add_lt_add_left hj offset⟩]
          rw [Nat.add_sub_cancel_left]
          rfl
      | ⟨i' + 1, hi⟩ =>
          have hi' : i' < rest.length := Nat.lt_of_succ_lt_succ hi
          have hget : (v :: rest).get ⟨i' + 1, hi⟩ = rest.get ⟨i', hi'⟩ := rfl
          have hcol : offset + offsetAt (v :: rest) (i' + 1) + j =
              (offset + v.n_var) + offsetAt rest i' + j := by
            simp [offsetAt, Nat.add_assoc]
          rw [hget] at hj ⊢
          rw [hcol]
          have h1 : scatterBlocks fill (v :: rest) offset full r
              ((offset + v.n_var) + offsetAt rest i' + j) =
              scatterBlocks fill rest (offset + v.n_var)
                (writeBlock full offset v.n_var (fill v.name zeroMat)) r
                ((offset + v.n_var) + offsetAt rest i' + j) := rfl
          rw [h1]
          exact ih (offset + v.n_var) _ ⟨i', hi'⟩ hj

/-! ### Concrete scenario: variable blocks "A" (size 3) and "B" (size 2),
a 2-row constraint depending only on "B" -/

/-- Variable block "A" of size 3. -/
def varA : VariableSet := ⟨"A", 3⟩

/-- Variable block "B" of size 2. -/
def varB : VariableSet := ⟨"B", 2⟩

/-- The variable composite holding blocks "A" and "B", total width 5. -/
def compAB : Composite := [varA, varB]

/-- A different variable composite, used to exercise re-linking. -/
def compC : Composite := [⟨"C", 1⟩]

/-- The 2×2 block of derivatives the subclass supplies for block "B". -/
def blockB : Mat := fun r c =>
  if r = 0 ∧ c = 0 then 1
  else if r = 0 ∧ c = 1 then 2
  else if r = 1 ∧ c = 0 then 3
  else if r = 1 ∧ c = 1 then 4
  else 0

/-- A subclass `FillJacobianBlock`: writes `blockB` into the passed block
matrix when asked about "B", does nothing for any other variable set. -/
def fillAB (_sub : Unit) (nm : String) (M : Mat) : Mat :=
  if nm = "B" then
    fun r c => if r < 2 ∧ c < 2 then blockB r c else M r c
  else M

/-- The concrete subclass: `fillAB` plus the default `LinkVariables`. -/
def implAB : ConstraintVTable Unit := ⟨fillAB, defaultLinkVariables Unit⟩

/-- The concrete 2-row constraint, already linked to `compAB`. -/
def csAB : ConstraintSet Unit :=
  { n_constraints := 2, name := "rom", variables_ := some compAB, sub := () }

/-- The concrete 2-row constraint, still unlinked. -/
def cs0 : ConstraintSet Unit := mkConstraintSet 2 "rom" ()

/-- The Jacobian `GetJacobian` returns for `csAB`. -/
def jacAB : Jacobian :=
  ⟨2, 5, scatterBlocks (implAB.fillJacobianBlock csAB.sub) compAB 0 zeroMat⟩

/-! ### Claims -/

/-- Claim C1: for every linked ConstraintSet with `n` constraint rows over
a variable Composite of total width `m`, `GetJacobian()` returns an n × m
matrix assembled by iterating the VariableSets of the linked Composite in
composite order, giving each block the column range whose offset is the
sum of the counts of the preceding blocks and whose width is that block's
own count, obtaining each block's entries from the subclass via
`FillJacobianBlock(block_name, block)` on a zero-initialized
(row count) × (block count) matrix, and writing that block into the
matching column range of the full matrix: at block `i`, local column `j`,
every entry of the result equals the entry the subclass wrote. -/
theorem getJacobian_assembles_blocks (impl : ConstraintVTable σ)
    (s : ConstraintSet σ) (comp : Composite) (J : Jacobian)
    (i : Fin comp.length) (r j : Nat)
    (hlink : s.variables_ = some comp)
    (hJ : GetJacobian impl s = some J)
    (hj : j < (comp.get i).n_var) :
    J.rows = s.n_constraints ∧ J.cols = totalCount comp ∧
    J.entry r (offsetAt comp i.val + j) =
      impl.fillJacobianBlock s.sub (comp.get i).name zeroMat r j := by
  have hval : GetJacobian impl s =
      some ⟨s.n_constraints, totalCount comp,
            scatterBlocks (impl.fillJacobianBlock s.sub) comp 0 zeroMat⟩ := by
    unfold GetJacobian
    rw [hlink]
  rw [hval] at hJ
  injection hJ with hJ
  subst hJ
  refine ⟨rfl, rfl, ?_⟩
  have h := scatterBlocks_entry (impl.fillJacobianBlock s.sub) comp 0 zeroMat i r j hj
  simpa using h

/-- Witness for C1: the concrete scenario `csAB` over `compAB`, at block
"B" (index 1, offset 3), row 0, local column 1 (global column 4). -/
theorem getJacobian_assembles_blocks_witness :
    jacAB.rows = 2 ∧ jacAB.cols = 5 ∧ jacAB.entry 0 4 = blockB 0 1 := by
  have h := getJacobian_assembles_blocks implAB csAB compAB jacAB
    ⟨1, by decide⟩ 0 1 rfl rfl (by decide)
  exact ⟨h.1, h.2.1, h.2.2⟩

/-- Claim C2: for every linked ConstraintSet and every VariableSet of the
linked Composite whose `FillJacobianBlock` call writes nothing, the column
range of `GetJacobian()`'s result for that block is entirely zero; in
particular, with blocks "A" (size 3) and "B" (size 2) and a 2-row
constraint depending only on "B", `GetJacobian()` is a 2×5 matrix whose
columns 0–2 are all zero and whose columns 3–4 equal the subclass-supplied
2×2 block. -/
theorem getJacobian_untouched_block_zero (impl : ConstraintVTable σ)
    (s : ConstraintSet σ) (comp : Composite) (J : Jacobian)
    (i : Fin comp.length) (r j : Nat)
    (hlink : s.variables_ = some comp)
    (hJ : GetJacobian impl s = some J)
    (hfill : ∀ M : Mat, impl.fillJacobianBlock s.sub (comp.get i).name M = M)
    (hj : j < (comp.get i).n_var) :
    J.entry r (offsetAt comp i.val + j) = 0 ∧
    GetJacobian implAB csAB = some jacAB ∧ jacAB.rows = 2 ∧ jacAB.cols = 5 ∧
    (jacAB.entry 0 0 = 0 ∧ jacAB.entry 0 1 = 0 ∧ jacAB.entry 0 2 = 0 ∧
     jacAB.entry 1 0 = 0 ∧ jacAB.entry 1 1 = 0 ∧ jacAB.entry 1 2 = 0) ∧
    (jacAB.entry 0 3 = blockB 0 0 ∧ jacAB.entry 0 4 = blockB 0 1 ∧
     jacAB.entry 1 3 = blockB 1 0 ∧ jacAB.entry 1 4 = blockB 1 1) := by
  refine ⟨?_, rfl, rfl, rfl, by decide, by decide⟩
  have hval : GetJacobian impl s =
      some ⟨s.n_constraints, totalCount comp,
            scatterBlocks (impl.fillJacobianBlock s.sub) comp 0 zeroMat⟩ := by
    unfold GetJacobian
    rw [hlink]
  rw [hval] at hJ
  injection hJ with hJ
  subst hJ
  have h := scatterBlocks_entry (impl.fillJacobianBlock s.sub) comp 0 zeroMat i r j hj
  rw [hfill zeroMat] at h
  simpa using h

/-- Witness for C2: block "A" (index 0) of the concrete scenario is not
touched by `fillAB`, and column 2 of row 1 (inside block "A"'s range) of
the returned Jacobian is zero. -/
theorem getJacobian_untouched_block_zero_witness :
    jacAB.entry 1 2 = 0 ∧ jacAB.entry 0 3 = blockB 0 0 := by
  have h := getJacobian_untouched_block_zero implAB csAB compAB jacAB
    ⟨0, by decide⟩ 1 2 rfl rfl (fun M => rfl) (by decide)
  exact ⟨h.1, h.2.2.2.2.2.1⟩

/-- Claim C3: for every VariableSet, every invocation of `GetJacobian()`
fails fatally (the `assert(false)` body fires) and never produces a
matrix. -/
theorem variableSet_getJacobian_fails (v : VariableSet) :
    VariableSet.GetJacobian v = none := rfl

/-- Claim C4: for every ConstraintSet and every vector `x`, invoking
`SetVariables(x)` fails fatally (the `assert(false)` body fires) and never
produces an updated constraint: the value of `x` is never assigned. -/
theorem constraintSet_setVariables_fails (s : ConstraintSet σ) (x : List ℚ) :
    ConstraintSet.SetVariables s x = none := rfl

/-- Claim C5: for every ConstraintSet and variable Composite `x`,
`LinkVariableAll(x)` stores the reference to `x` as the linked variables
and then invokes the overridable `LinkVariables` hook (on the
already-updated object); when the hook is the default implementation the
call changes nothing beyond storing `x` (the default hook is a no-op). -/
theorem linkVariableAll_stores_then_hooks (impl : ConstraintVTable σ)
    (s : ConstraintSet σ) (x : Composite)
    (hdef : impl.linkVariables = defaultLinkVariables σ) :
    LinkVariableAll impl s x =
      { s with variables_ := some x,
               sub := impl.linkVariables x (some x) s.sub } ∧
    LinkVariableAll impl s x = { s with variables_ := some x } := by
  refine ⟨rfl, ?_⟩
  rw [show LinkVariableAll impl s x =
    { s with variables_ := some x,
             sub := impl.linkVariables x (some x) s.sub } from rfl, hdef]
  rfl

/-- Witness for C5: linking the concrete unlinked constraint `cs0` (whose
vtable carries the default hook) to `compAB` just stores the reference. -/
theorem linkVariableAll_stores_then_hooks_witness :
    implAB.linkVariables = defaultLinkVariables Unit ∧
    LinkVariableAll implAB cs0 compAB = { cs0 with variables_ := some compAB } :=
  ⟨rfl, (linkVariableAll_stores_then_hooks implAB cs0 compAB rfl).2⟩

/-- Counterexample to claim C6 as stated: a second `LinkVariableAll` call
with a different Composite silently re-points the constraint — after
linking `cs0` to `compAB` and then to `compC`, `GetVariables()` returns
`compC`, not the originally linked `compAB`. -/
theorem linkVariableAll_repoints_counterexample :
    GetVariables (LinkVariableAll implAB cs0 compAB) = some compAB ∧
    GetVariables (LinkVariableAll implAB (LinkVariableAll implAB cs0 compAB) compC)
      = some compC ∧
    compC ≠ compAB := by
  refine ⟨rfl, rfl, ?_⟩
  decide

/-- Claim C6 (amended): `LinkVariableAll` unconditionally stores whatever
Composite each call passes: a second call re-points the constraint to the
new Composite; one-time linking is a caller obligation, not enforced by
the code. -/
theorem linkVariableAll_repoints (impl : ConstraintVTable σ)
    (s : ConstraintSet σ) (x1 x2 : Composite) :
    GetVariables (LinkVariableAll impl (LinkVariableAll impl s x1) x2) = some x2 := rfl

/-- Claim C7: for every ConstraintSet not yet linked via `LinkVariableAll`
(its variables reference is absent), `GetJacobian()` and the
constraint-value query both fail rather than returning a silently wrong
result. -/
theorem getJacobian_unlinked_fails (impl : ConstraintVTable σ)
    (g : Composite → σ → List ℚ) (s : ConstraintSet σ)
    (h : s.variables_ = none) :
    GetJacobian impl s = none ∧ Component.GetValues g s = none := by
  constructor
  · unfold GetJacobian
    rw [h]
  · unfold Component.GetValues
    rw [h]

/-- Witness for C7: the concrete freshly constructed constraint `cs0` is
unlinked; its Jacobian query and its value query both fail. -/
theorem getJacobian_unlinked_fails_witness :
    cs0.variables_ = none ∧
    (GetJacobian implAB cs0 = none ∧
     Component.GetValues (fun _ _ => ([] : List ℚ)) cs0 = none) :=
  ⟨rfl, getJacobian_unlinked_fails implAB (fun _ _ => ([] : List ℚ)) cs0 rfl⟩

/-- Claim C8: for every CostTerm, `GetValues()` returns a vector of length
exactly 1 whose single entry equals the scalar returned by `GetCost()`
(the subclass function `g`) on the same state. -/
theorem costTerm_getValues_wraps_cost (g : ConstraintSet σ → ℚ)
    (s : ConstraintSet σ) :
    (CostTerm.GetValues g s).length = 1 ∧ CostTerm.GetValues g s = [g s] :=
  ⟨rfl, rfl⟩

/-- Claim C9: every CostTerm is constructed with exactly 1 row, and
`GetBounds()` always returns exactly one interval equal to (−∞, +∞),
whatever the state (cost value or linked variables). -/
theorem costTerm_one_row_unbounded (name : String) (sub : σ)
    (s : ConstraintSet σ) :
    (mkCostTerm name sub).n_constraints = 1 ∧
    CostTerm.GetBounds s = [noBound] ∧
    (CostTerm.GetBounds s).length = 1 ∧
    noBound = ⟨BoundEnd.negInf, BoundEnd.posInf⟩ :=
  ⟨rfl, rfl, rfl, rfl⟩

/-- Claim C10: after `LinkVariableAll(x)` returns, `GetVariables()`
returns exactly the Composite passed to the most recent call (also after
an earlier link to some `x1`), and the stored reference is updated before
the `LinkVariables` hook runs: the hook's view of `GetVariables()` is
already `some x`. -/
theorem linkVariableAll_getVariables (impl : ConstraintVTable σ)
    (s : ConstraintSet σ) (x x1 : Composite) :
    GetVariables (LinkVariableAll impl s x) = some x ∧
    LinkVariableAll impl s x =
      { s with variables_ := some x,
               sub := impl.linkVariables x
                 (GetVariables { s with variables_ := some x }) s.sub } ∧
    GetVariables { s with variables_ := some x } = some x ∧
    GetVariables (LinkVariableAll impl (LinkVariableAll impl s x1) x) = some x :=
  ⟨rfl, rfl, rfl, rfl⟩

end Ifopt
